import Mathlib

/-!
Shallow embedding of the `leptos-unique-ids` repository: the lint-side token
scanner and the two diagnostic rules (from `lints/helpers/src/lib.rs`,
`lints/literal_as_id_attribute_value/src/lib.rs`,
`lints/tt_as_id_attribute_value/src/lib.rs`), and the registry generator
(from `src/lib.rs` and `src/pascal_case.rs`).

Source spans are opaque in the original (rustc / proc-macro spans); they are
modelled as natural-number identifiers, which is all the code ever does with
them (attach them to diagnostics and errors).
-/

namespace LeptosUniqueIds

/-! ### Data model for the lint side (rustc_ast tokens, as used by the lints) -/

/-- A source span, modelled as an opaque identifier.  The lints only ever copy
spans into diagnostics, never inspect them. -/
abbrev Span := Nat

/-- Literal kinds of `rustc_ast::token::LitKind` (the lints compare against
`LitKind::Str` only; the remaining variants are carried for faithfulness). -/
inductive LitKind where
  | Bool
  | Byte
  | Char
  | Integer
  | Float
  | Str
  | StrRaw (hashes : Nat)
  | ByteStr
  | ByteStrRaw (hashes : Nat)
  | CStr
  | CStrRaw (hashes : Nat)
  | Err
deriving DecidableEq

/-- A token literal (`rustc_ast::token::Lit`): a kind plus its symbol text.
The suffix field of the original is never read by this code and is omitted. -/
structure Lit where
  kind : LitKind
  symbol : String
deriving DecidableEq

/-- Token kinds of `rustc_ast::token::TokenKind`, restricted to the
constructors the lints distinguish: identifiers (with the raw-identifier
flag), the `=` punctuation token, literals, and a catch-all for every other
token kind (other punctuation, lifetimes, ...), tagged with a descriptive
text so distinct concrete tokens stay distinct. -/
inductive TokenKind where
  | Ident (name : String) (isRaw : Bool)
  | Eq
  | Literal (lit : Lit)
  | Other (descr : String)
deriving DecidableEq

/-- Embeds `rustc_ast::token::Token`: a kind plus a span. -/
structure Token where
  kind : TokenKind
  span : Span
deriving DecidableEq

/-- Embeds `rustc_ast::tokenstream::TokenTree`: an atomic token (the `Spacing`
field is never read by this code and is omitted) or a delimited group.
Of a `Delimited` tree this code only ever reads the entire span
(`delim_span.entire()`), so the delimiter kind and the inner stream are
carried only to keep distinct inputs distinct. -/
inductive TokenTree where
  | Token (tok : Token)
  | Delimited (entireSpan : Span) (inner : List TokenTree)

/-- A segment of a macro call path (`rustc_ast::PathSegment`): only the
identifier name is ever read. -/
structure PathSegment where
  ident : String

/-- Embeds `rustc_ast::MacCall`, restricted to what the lints read: the path
segments and the top-level token trees of the delimited arguments
(`macro_call.args.tokens`). -/
structure MacCall where
  path : List PathSegment
  argTokens : List TokenTree

/-! ### Invocation recognizer (`is_leptos_view_macro_call`, helpers lines 11-18) -/

/-- Given a macro call, return if it is a `view!` macro: the last path
segment's identifier must be exactly "view" (`map_or(false, ..)` on
`segments.iter().last()`). -/
def is_leptos_view_macro_call (macroCall : MacCall) : Bool :=
  match macroCall.path.getLast? with
  | some segment => segment.ident == "view"
  | none => false

/-! ### Attribute value scanner (`ViewMacroCallIdAttributeValueIter`, helpers lines 20-73)

The iterator keeps a `parser_state : u8` (1 = initial, 2 = inside id
attribute, 4 = inside id attribute value, per the source comments) and a
position in the top-level token-tree list.  `viewIterNext` embeds one call of
`Iterator::next`: it returns the emitted token together with the parser state
and the remaining trees after the call, or `none` when the stream is
exhausted.  The internal tail recursion of the source (`self.next()`)
consumes one tree per step, so it is structural recursion on the list. -/

/-- One call of `ViewMacroCallIdAttributeValueIter::next` starting from the
given parser state and remaining token trees.  Transitions mirror the source
bit shifts: `parser_state <<= 1` on a match, `parser_state >>= 1` on a failed
`=` match, and `parser_state = 1` when a non-atom is found in the value
state.  Note that on emission (`return Some(token)` in the value state) the
source leaves `parser_state` unchanged. -/
def viewIterNext (parserState : Nat) : List TokenTree → Option (Token × Nat × List TokenTree)
  | [] => none
  | t :: rest =>
    if parserState == 1 then
      match t with
      | .Token tok =>
        match tok.kind with
        | .Ident symbol _ =>
          if symbol == "id" then viewIterNext (parserState <<< 1) rest
          else viewIterNext parserState rest
        | _ => viewIterNext parserState rest
      | .Delimited _ _ => viewIterNext parserState rest
    else if parserState == 2 then
      match t with
      | .Token tok =>
        if tok.kind == .Eq then viewIterNext (parserState <<< 1) rest
        else viewIterNext (parserState >>> 1) rest
      | .Delimited _ _ => viewIterNext (parserState >>> 1) rest
    else
      match t with
      | .Token tok => some (tok, parserState, rest)
      | .Delimited _ _ => viewIterNext 1 rest

/-- The full emission sequence of `ViewMacroCallIdAttributeValueIter`
(repeated calls of `next` until exhaustion), written by the same transition
structure as `viewIterNext` so that it is structural recursion on the list;
`scanIdValues_eq_viewIterNext` below proves the two agree. -/
def scanIdValues (parserState : Nat) : List TokenTree → List Token
  | [] => []
  | t :: rest =>
    if parserState == 1 then
      match t with
      | .Token tok =>
        match tok.kind with
        | .Ident symbol _ =>
          if symbol == "id" then scanIdValues (parserState <<< 1) rest
          else scanIdValues parserState rest
        | _ => scanIdValues parserState rest
      | .Delimited _ _ => scanIdValues parserState rest
    else if parserState == 2 then
      match t with
      | .Token tok =>
        if tok.kind == .Eq then scanIdValues (parserState <<< 1) rest
        else scanIdValues (parserState >>> 1) rest
      | .Delimited _ _ => scanIdValues (parserState >>> 1) rest
    else
      match t with
      | .Token tok => tok :: scanIdValues parserState rest
      | .Delimited _ _ => scanIdValues 1 rest

/-! ### Diagnostics and the two rules -/

/-- A diagnostic as emitted by `span_lint_and_help`: the primary span, the
fixed message and the fixed help text.  (Severity is always Warn and the
secondary span is always `None` in this code.) -/
structure Diagnostic where
  span : Span
  message : String
  help : String
deriving DecidableEq

/-- Fixed message of the `literal_as_id_attribute_value` lint. -/
def literalLintMessage : String := "literal string passed as id attribute value"

/-- Fixed help text of the `literal_as_id_attribute_value` lint. -/
def literalLintHelp : String :=
  "for further information visit https://github.com/mondeja/leptos-unique-ids/tree/main/lints/literal_as_id_attribute_value#readme"

/-- Fixed message of the `tt_as_id_attribute_value` lint (`MESSAGE`). -/
def ttLintMessage : String := "token tree that is not `Ids` enum passed as id attribute value"

/-- Fixed help text of the `tt_as_id_attribute_value` lint (`HELP`). -/
def ttLintHelp : String :=
  "for further information visit https://github.com/mondeja/leptos-unique-ids/tree/main/lints/tt_as_id_attribute_value#readme"

/-- The loop body of `LiteralAsIdAttributeValue::check_mac` over the tokens
yielded by the iterator: report on a token literal whose kind is
`LitKind::Str`, do nothing otherwise. -/
def literalLintOnTokens : List Token → List Diagnostic
  | [] => []
  | token :: rest =>
    match token.kind with
    | .Literal lit =>
      if lit.kind == .Str then
        ⟨token.span, literalLintMessage, literalLintHelp⟩ :: literalLintOnTokens rest
      else literalLintOnTokens rest
    | _ => literalLintOnTokens rest

/-- Embeds `LiteralAsIdAttributeValue::check_mac`: gate on the recognizer, then run
the loop over the iterator's yields.  The diagnostics are returned as the
list appended to the host sink, in emission order. -/
def literalAsIdAttributeValue_check_mac (macroCall : MacCall) : List Diagnostic :=
  if !(is_leptos_view_macro_call macroCall) then []
  else literalLintOnTokens (scanIdValues 1 macroCall.argTokens)

/-- The diagnostic `TtAsIdAttributeValue::check_mac` emits for a given
primary span. -/
def ttDiag (sp : Span) : Diagnostic := ⟨sp, ttLintMessage, ttLintHelp⟩

/-- The loop body of `TtAsIdAttributeValue::check_mac` over the items of the
iterator, written on token trees as in the source: skip an atom that is the
identifier `Ids` or a `LitKind::Str` literal, report any other atom at the
token's span, and report a delimited group at its entire span. -/
def ttLintOnItems : List TokenTree → List Diagnostic
  | [] => []
  | tt :: rest =>
    match tt with
    | .Token tok =>
      match tok.kind with
      | .Ident symbol _ =>
        if symbol == "Ids" then ttLintOnItems rest
        else ttDiag tok.span :: ttLintOnItems rest
      | .Literal lit =>
        if lit.kind == .Str then ttLintOnItems rest
        else ttDiag tok.span :: ttLintOnItems rest
      | _ => ttDiag tok.span :: ttLintOnItems rest
    | .Delimited entireSpan _ => ttDiag entireSpan :: ttLintOnItems rest

/-- Embeds `TtAsIdAttributeValue::check_mac`: gate on the recognizer, then run the
loop over the iterator's yields.  The helper iterator's item type is
`&Token`, so every item its loop can receive is an atomic token; the items
are injected into `TokenTree` through the `Token` constructor (the
`Delimited` arm of the loop is consequently unreachable from this
composition). -/
def ttAsIdAttributeValue_check_mac (macroCall : MacCall) : List Diagnostic :=
  if !(is_leptos_view_macro_call macroCall) then []
  else ttLintOnItems ((scanIdValues 1 macroCall.argTokens).map TokenTree.Token)

/-! ### Data model for the registry generator (`proc_macro` token trees) -/

/-- Embeds `proc_macro::Delimiter`. -/
inductive Delimiter where
  | Parenthesis
  | Brace
  | Bracket
  | NoneDelim
deriving DecidableEq

/-- Embeds `proc_macro::TokenTree`, restricted to what the generator reads: groups
(delimiter, inner stream, span), identifiers (name, span), punctuation
(character, span) and literals (their `to_string()` spelling, span). -/
inductive PMTokenTree where
  | Group (delimiter : Delimiter) (stream : List PMTokenTree) (span : Span)
  | Ident (name : String) (span : Span)
  | Punct (ch : Char) (span : Span)
  | Literal (text : String) (span : Span)

/-- The span of a `proc_macro` token tree (`token.span()`). -/
def PMTokenTree.span : PMTokenTree → Span
  | .Group _ _ sp => sp
  | .Ident _ sp => sp
  | .Punct _ sp => sp
  | .Literal _ sp => sp

/-- A positioned compile-time error: the generator's `error(message, span)`
emits a `compile_error!` invocation carrying this message at this span, and
generates no other code for the declaration. -/
structure GenError where
  message : String
  span : Span
deriving DecidableEq

/-- The observable content of a successful expansion: the collected
visibility tokens (`vis`), the literal values in declaration order (`ids`),
and the derived variant names in the same order (`ids_variants_idents`).
The emitted token stream (enum declaration, `as_str`, the conversion impls)
is mechanically generated from exactly these three components. -/
structure GenOutput where
  vis : Option (List PMTokenTree)
  ids : List String
  variants : List String

/-! ### ASCII character helpers (mirroring the `u8`/`char` ASCII methods used
by `src/pascal_case.rs`) -/

/-- Rust `char::is_ascii`. -/
def isAsciiChar (c : Char) : Bool := c.toNat < 128

/-- Rust `char::is_ascii_uppercase`. -/
def isAsciiUppercase (c : Char) : Bool := 65 ≤ c.toNat && c.toNat ≤ 90

/-- Rust `char::is_ascii_lowercase`. -/
def isAsciiLowercase (c : Char) : Bool := 97 ≤ c.toNat && c.toNat ≤ 122

/-- Rust `char::is_ascii_digit`. -/
def isAsciiDigit (c : Char) : Bool := 48 ≤ c.toNat && c.toNat ≤ 57

/-- Rust `char::is_ascii_alphanumeric`. -/
def isAsciiAlphanumeric (c : Char) : Bool :=
  isAsciiUppercase c || isAsciiLowercase c || isAsciiDigit c

/-- Rust `char::to_ascii_uppercase`. -/
def toAsciiUppercase (c : Char) : Char :=
  if isAsciiLowercase c then Char.ofNat (c.toNat - 32) else c

/-! ### `src/pascal_case.rs`: the repository's own pascal-case transform -/

/-- The character loop of `to_pascal_case` (`src/pascal_case.rs`, the
default, non-`convert-case` variant): errors out on the first non-ASCII
character, uppercases a character at a word boundary, passes letters through
unchanged inside a word, lets a digit end the current word, and lets any
non-alphanumeric character end the word without emitting output.  The
accumulator `atWordBoundary` starts as `true`. -/
def to_pascal_case_go (atWordBoundary : Bool) : List Char → Except String (List Char)
  | [] => .ok []
  | c :: rest =>
    if !(isAsciiChar c) then .error "Input contains non-ASCII characters."
    else if isAsciiAlphanumeric c then
      if atWordBoundary then
        (to_pascal_case_go false rest).map (fun tail => toAsciiUppercase c :: tail)
      else if isAsciiUppercase c || isAsciiLowercase c then
        (to_pascal_case_go false rest).map (fun tail => c :: tail)
      else if isAsciiDigit c then
        (to_pascal_case_go true rest).map (fun tail => c :: tail)
      else
        to_pascal_case_go true rest
    else to_pascal_case_go true rest

/-- Embeds `to_pascal_case` from `src/pascal_case.rs`. -/
def to_pascal_case (input : String) : Except String String :=
  (to_pascal_case_go true input.toList).map String.mk

/-! ### `src/lib.rs`: the `leptos_unique_ids` attribute generator -/

/-- The pascal-case word loop without an error path, used to model the
external conversion below. -/
def pascalChars (atWordBoundary : Bool) : List Char → List Char
  | [] => []
  | c :: rest =>
    if isAsciiAlphanumeric c then
      if atWordBoundary then toAsciiUppercase c :: pascalChars false rest
      else if isAsciiUppercase c || isAsciiLowercase c then c :: pascalChars false rest
      else if isAsciiDigit c then c :: pascalChars true rest
      else pascalChars true rest
    else pascalChars true rest

/-- Modelled from the spec: `to_pascal_case_ident` in `src/lib.rs` (lines
476-479) computes `input.to_case(Case::Pascal)` with the external
`convert_case` crate, whose code is not part of this repository; the
transform text is modelled from the spec's description of the pascal-case
transform (word boundaries at non-alphanumeric characters, the first letter
of each word uppercased, a digit ending the current word).  What the source
fixes and this model preserves is that the function is a pure total
`String -> Ident` with no error path of any kind. -/
def to_pascal_case_ident (input : String) : String :=
  String.mk (pascalChars true input.toList)

/-- Rust `str::starts_with`, on the character list (the prefixes tested by
`value_from_literal_str` are all ASCII, so byte-wise and character-wise
prefix tests agree). -/
def strStartsWith (s pre : String) : Bool := pre.toList.isPrefixOf s.toList

/-- Embeds `value_from_literal_str` (`src/lib.rs` lines 462-474): strip the
delimiters of a string-literal spelling, or report that the literal is not a
string literal.  The source slices by bytes; since every stripped delimiter
character (`r`, `c`, `#`, `"`) is one-byte ASCII, dropping characters is
equivalent for well-formed literal spellings. -/
def value_from_literal_str (literalStr : String) : Except String String :=
  let cs := literalStr.toList
  if strStartsWith literalStr "r#" then .ok (String.mk ((cs.drop 2).dropLast.dropLast))
  else if strStartsWith literalStr "c\"" then .ok (String.mk ((cs.drop 2).dropLast))
  else if strStartsWith literalStr "cr#" then .ok (String.mk ((cs.drop 3).dropLast.dropLast))
  else if strStartsWith literalStr "\"" then .ok (String.mk ((cs.drop 1).dropLast))
  else .error "Literal must be a string literal"

/-- The `skip_while` closure of `leptos_unique_ids` (`src/lib.rs` lines
144-162) together with its captured mutable `vis`: skip tokens while looking
for the `enum` keyword, recording a `pub` identifier into `vis` (replacing
any previous value) and stopping at either the `enum` identifier or a
parenthesis group (which is appended to `vis` and kept in the stream).
Returns the final `vis` and the non-skipped remainder of the stream. -/
def visSkipWhile (vis : Option (List PMTokenTree)) : List PMTokenTree →
    Option (List PMTokenTree) × List PMTokenTree
  | [] => (vis, [])
  | t :: rest =>
    match t with
    | .Ident name _ =>
      if name == "enum" then (vis, t :: rest)
      else if name == "pub" then visSkipWhile (some [t]) rest
      else visSkipWhile vis rest
    | .Group delimiter _ _ =>
      if delimiter == .Parenthesis then (some (vis.getD [] ++ [t]), t :: rest)
      else visSkipWhile vis rest
    | _ => visSkipWhile vis rest

/-- The `all` predicate of the target-declaration shape check
(`src/lib.rs` lines 164-173): each remaining token must be one of the
identifiers `Ids`, `enum`, `pub`, or a brace- or parenthesis-delimited
group (whose contents are not inspected). -/
def enumTokenOk : PMTokenTree → Bool
  | .Ident name _ => name == "Ids" || name == "enum" || name == "pub"
  | .Group delimiter _ _ => delimiter == .Brace || delimiter == .Parenthesis
  | _ => false

/-- Whether a `proc_macro` token tree is the identifier `enum` (the
predicate of the second `skip_while` on the shape-error path, lines
174-176). -/
def isEnumIdent : PMTokenTree → Bool
  | .Ident name _ => name == "enum"
  | _ => false

/-- The span used for the shape error (`src/lib.rs` lines 174-185): the span
of the first token from the `enum` keyword onward.  When the declaration
holds no `enum` identifier at all the source panics on `expect`; that case
is mapped to span 0 and is not relied on by any theorem below. -/
def shapeErrorSpan (item : List PMTokenTree) : Span :=
  match (item.dropWhile (fun t => !(isEnumIdent t))).head? with
  | some t => t.span
  | none => 0

/-- The message of the target-declaration shape error.  (The source writes
the braces doubled inside a byte string, where no format escaping applies,
so the doubled braces appear literally in the message.) -/
def shapeErrorMessage : String :=
  "Expected an enum formed with the token tree `enum Ids \x7b\x7b\x7d\x7d`."

/-- The configuration loop of `leptos_unique_ids` (`src/lib.rs` lines
193-230) with its accumulated `ids` and `ids_variants_idents`: a literal is
unquoted, checked non-empty and not already collected, and pushed together
with its derived variant name; a punctuation token must be a comma; any
other token is rejected. -/
def processAttr (ids : List String) (variants : List String) :
    List PMTokenTree → Except GenError (List String × List String)
  | [] => .ok (ids, variants)
  | token :: rest =>
    match token with
    | .Literal text sp =>
      match value_from_literal_str text with
      | .error msg => .error ⟨msg, sp⟩
      | .ok value =>
        if value.isEmpty then
          .error ⟨"String literals in the attribute cannot be empty.", sp⟩
        else if ids.contains value then
          .error ⟨"Duplicated string literal found.", sp⟩
        else
          processAttr (ids ++ [value]) (variants ++ [to_pascal_case_ident value]) rest
    | .Punct ch sp =>
      if ch != ',' then
        .error ⟨"Expected a comma between string literals in the attribute.", sp⟩
      else processAttr ids variants rest
    | _ =>
      .error ⟨"Expected only string literals and commas in the attribute.", token.span⟩

/-- Embeds `leptos_unique_ids(attr, item)` (`src/lib.rs` lines 137-262, through the
collection of `ids`): first the target-declaration shape check, then the
configuration loop.  On success the function mechanically emits the enum and
its impls from `vis`, `ids` and `ids_variants_idents`; those three are
returned as the observable output.  On error it returns the positioned
`compile_error!` and generates nothing else. -/
def leptos_unique_ids (attr item : List PMTokenTree) : Except GenError GenOutput :=
  let skipped := visSkipWhile none item
  if !(skipped.2.all enumTokenOk) then
    .error ⟨shapeErrorMessage, shapeErrorSpan item⟩
  else
    match processAttr [] [] attr with
    | .error e => .error e
    | .ok (ids, variants) => .ok ⟨skipped.1, ids, variants⟩

/-! ### Derived classification functions used in theorem statements -/

/-- Whether a token tree is an atom carrying the `=` punctuation token (the
test of the `SeenIdentifier` state). -/
def isEqAtom : TokenTree → Bool
  | .Token tok => tok.kind == .Eq
  | _ => false

/-- The per-token classification of the literal rule: the diagnostic it
emits for a yielded token, if any. -/
def literalLintClassify (token : Token) : Option Diagnostic :=
  match token.kind with
  | .Literal lit =>
    if lit.kind == .Str then some ⟨token.span, literalLintMessage, literalLintHelp⟩
    else none
  | _ => none

/-- The string values of the literal tokens of a configuration list, in
declaration order (the values `value_from_literal_str` succeeds on). -/
def attrValues (attr : List PMTokenTree) : List String :=
  attr.filterMap (fun t =>
    match t with
    | .Literal text _ => (value_from_literal_str text).toOption
    | _ => none)

/-! ### Concrete inputs used by the claim theorems and witnesses

Token spans are consecutive numbers standing for the source positions. -/

/-- An atom holding a (non-raw) identifier token. -/
def tokIdent (name : String) (sp : Span) : TokenTree := .Token ⟨.Ident name false, sp⟩

/-- An atom holding the `=` punctuation token. -/
def tokEq (sp : Span) : TokenTree := .Token ⟨.Eq, sp⟩

/-- An atom holding an ordinary (cooked) string-literal token. -/
def tokStr (s : String) (sp : Span) : TokenTree := .Token ⟨.Literal ⟨.Str, s⟩, sp⟩

/-- An atom holding some other token (punctuation such as `<`, `::`, `>`). -/
def tokOther (descr : String) (sp : Span) : TokenTree := .Token ⟨.Other descr, sp⟩

/-- Top-level argument tokens of `view! { <div id="A" id="B"> }`: two id
attributes in one invocation. -/
def exTwoIds : List TokenTree :=
  [tokOther "<" 0, tokIdent "div" 1, tokIdent "id" 2, tokEq 3, tokStr "A" 4,
   tokIdent "id" 5, tokEq 6, tokStr "B" 7, tokOther ">" 8]

/-- The `view!` invocation holding `exTwoIds`. -/
def mcTwoIds : MacCall := ⟨[⟨"view"⟩], exTwoIds⟩

/-- Argument tokens beginning with an `id="A"` attribute followed by one
more token, exhibiting the parser state right after an emission. -/
def exEmit : List TokenTree := [tokIdent "id" 1, tokEq 2, tokStr "A" 3, tokOther ">" 4]

/-- Top-level argument tokens of `view! { <div id=Ids::MyIdentifier> }`. -/
def exIdsValue : List TokenTree :=
  [tokOther "<" 0, tokIdent "div" 1, tokIdent "id" 2, tokEq 3, tokIdent "Ids" 4,
   tokOther "::" 5, tokIdent "MyIdentifier" 6, tokOther ">" 7]

/-- The `view!` invocation holding `exIdsValue`. -/
def mcIdsValue : MacCall := ⟨[⟨"view"⟩], exIdsValue⟩

/-- Top-level argument tokens of `view! { <div id={foo}> }`: the value bound
to the id attribute is a delimited group. -/
def exGroupValue : List TokenTree :=
  [tokOther "<" 0, tokIdent "div" 1, tokIdent "id" 2, tokEq 3,
   TokenTree.Delimited 4 [tokIdent "foo" 5], tokOther ">" 6]

/-- The `view!` invocation holding `exGroupValue`. -/
def mcGroupValue : MacCall := ⟨[⟨"view"⟩], exGroupValue⟩

/-- The top-level token sequence `id id = x` of the spec's open question. -/
def exIdIdEqX : List TokenTree :=
  [tokIdent "id" 1, tokIdent "id" 2, tokEq 3, tokIdent "x" 4]

/-- Top-level argument tokens of `view! { <div id=r"X"> }`: the value bound
to the id attribute is a raw string literal (`LitKind::StrRaw`). -/
def exRawStr : List TokenTree :=
  [tokOther "<" 0, tokIdent "div" 1, tokIdent "id" 2, tokEq 3,
   TokenTree.Token ⟨.Literal ⟨.StrRaw 0, "X"⟩, 4⟩, tokOther ">" 5]

/-- The `view!` invocation holding `exRawStr`. -/
def mcRawStr : MacCall := ⟨[⟨"view"⟩], exRawStr⟩

/-- An invocation of a macro whose last path segment is `html`, not `view`,
with argument tokens that would otherwise trigger both rules. -/
def mcNotView : MacCall := ⟨[⟨"leptos"⟩, ⟨"html"⟩], exTwoIds⟩

/-- The well-formed generator target `enum Ids {}`. -/
def emptyIdsEnum : List PMTokenTree :=
  [.Ident "enum" 100, .Ident "Ids" 101, .Group .Brace [] 102]

/-- The generator target `enum Ids { A }` with a non-empty body. -/
def nonEmptyIdsEnum : List PMTokenTree :=
  [.Ident "enum" 30, .Ident "Ids" 31, .Group .Brace [.Ident "A" 33] 32]

/-- A configuration list holding one literal with a non-ASCII character:
`("fóo")`. -/
def attrNonAscii : List PMTokenTree := [.Literal "\"fóo\"" 20]

end LeptosUniqueIds

namespace LeptosUniqueIds

/-- The two embeddings of the iterator agree: the full emission list follows
one `next` call at a time. -/
theorem scanIdValues_eq_viewIterNext :
    ∀ (ts : List TokenTree) (s : Nat),
      scanIdValues s ts =
        (match viewIterNext s ts with
         | none => []
         | some (tok, s2, rest) => tok :: scanIdValues s2 rest) := by
  intro ts
  induction ts with
  | nil => intro s; simp [scanIdValues, viewIterNext]
  | cons t rest ih =>
    intro s
    by_cases h1 : s == 1
    · cases t with
      | Token tok =>
        cases hk : tok.kind with
        | Ident symbol isRaw =>
          by_cases h2 : symbol == "id"
          · simp [scanIdValues, viewIterNext, h1, hk, h2, ih]
          · simp [scanIdValues, viewIterNext, h1, hk, h2, ih]
        | Eq => simp [scanIdValues, viewIterNext, h1, hk, ih]
        | Literal lit => simp [scanIdValues, viewIterNext, h1, hk, ih]
        | Other descr => simp [scanIdValues, viewIterNext, h1, hk, ih]
      | Delimited sp inner => simp [scanIdValues, viewIterNext, h1, ih]
    · by_cases h2 : s == 2
      · cases t with
        | Token tok =>
          by_cases hk : tok.kind == .Eq
          · simp [scanIdValues, viewIterNext, h1, h2, hk, ih]
          · simp [scanIdValues, viewIterNext, h1, h2, hk, ih]
        | Delimited sp inner => simp [scanIdValues, viewIterNext, h1, h2, ih]
      · cases t with
        | Token tok => simp [scanIdValues, viewIterNext, h1, h2]
        | Delimited sp inner => simp [scanIdValues, viewIterNext, h1, h2, ih]


/-- The literal rule's loop is the filter-map of its per-token
classification. -/
theorem literalLintOnTokens_eq_filterMap :
    ∀ toks : List Token, literalLintOnTokens toks = toks.filterMap literalLintClassify := by
  intro toks
  induction toks with
  | nil => simp [literalLintOnTokens]
  | cons token rest ih =>
    cases hk : token.kind with
    | Literal lit =>
      by_cases hs : lit.kind == .Str
      · simp [literalLintOnTokens, literalLintClassify, hk, hs, ih]
      · simp [literalLintOnTokens, literalLintClassify, hk, hs, ih]
    | Ident symbol isRaw => simp [literalLintOnTokens, literalLintClassify, hk, ih]
    | Eq => simp [literalLintOnTokens, literalLintClassify, hk, ih]
    | Other descr => simp [literalLintOnTokens, literalLintClassify, hk, ih]

/-- Processing a configuration list that succeeds on a prefix continues on
the appended remainder from the accumulated state. -/
theorem processAttr_append :
    ∀ (xs : List PMTokenTree) (ids variants ids2 variants2 : List String)
      (ys : List PMTokenTree),
      processAttr ids variants xs = .ok (ids2, variants2) →
      processAttr ids variants (xs ++ ys) = processAttr ids2 variants2 ys := by
  intro xs
  induction xs with
  | nil =>
    intro ids variants ids2 variants2 ys h
    simp [processAttr] at h
    simp [h.1, h.2]
  | cons t rest ih =>
    intro ids variants ids2 variants2 ys h
    cases t with
    | Literal text sp =>
      cases hv : value_from_literal_str text with
      | error msg => simp [processAttr, hv] at h
      | ok value =>
        by_cases he : value.isEmpty
        · simp [processAttr, hv, he] at h
        · by_cases hc : value ∈ ids
          · simp [processAttr, hv, he, hc] at h
          · have h2 : processAttr (ids ++ [value]) (variants ++ [to_pascal_case_ident value]) rest
                = .ok (ids2, variants2) := by
              simpa [processAttr, hv, he, hc] using h
            have hg : processAttr ids variants ((PMTokenTree.Literal text sp :: rest) ++ ys)
                = processAttr (ids ++ [value]) (variants ++ [to_pascal_case_ident value]) (rest ++ ys) := by
              simp [processAttr, hv, he, hc]
            rw [hg]
            exact ih _ _ _ _ ys h2
    | Punct ch sp =>
      by_cases hch : ch = ','
      · have h2 : processAttr ids variants rest = .ok (ids2, variants2) := by
          simpa [processAttr, hch] using h
        have hg : processAttr ids variants ((PMTokenTree.Punct ch sp :: rest) ++ ys)
            = processAttr ids variants (rest ++ ys) := by
          simp [processAttr, hch]
        rw [hg]
        exact ih _ _ _ _ ys h2
      · simp [processAttr, hch] at h
    | Ident name sp => simp [processAttr] at h
    | Group delimiter stream sp => simp [processAttr] at h

/-- Every value collected by a successful configuration pass was in the
starting accumulator or is non-empty. -/
theorem processAttr_ok_nonempty :
    ∀ (attr : List PMTokenTree) (ids variants ids2 variants2 : List String),
      processAttr ids variants attr = .ok (ids2, variants2) →
      ∀ v, v ∈ ids2 → v ∈ ids ∨ v.isEmpty = false := by
  intro attr
  induction attr with
  | nil =>
    intro ids variants ids2 variants2 h v hv
    simp [processAttr] at h
    rw [← h.1] at hv
    exact Or.inl hv
  | cons t rest ih =>
    intro ids variants ids2 variants2 h v hv
    cases t with
    | Literal text sp =>
      cases hval : value_from_literal_str text with
      | error msg => simp [processAttr, hval] at h
      | ok value =>
        by_cases he : value.isEmpty
        · simp [processAttr, hval, he] at h
        · by_cases hc : value ∈ ids
          · simp [processAttr, hval, he, hc] at h
          · have h2 : processAttr (ids ++ [value]) (variants ++ [to_pascal_case_ident value]) rest
                = .ok (ids2, variants2) := by
              simpa [processAttr, hval, he, hc] using h
            rcases ih _ _ _ _ h2 v hv with hmem | hne
            · rcases List.mem_append.mp hmem with hin | hval1
              · exact Or.inl hin
              · right
                rw [List.mem_singleton.mp hval1]
                simpa using he
            · exact Or.inr hne
    | Punct ch sp =>
      by_cases hch : ch = ','
      · have h2 : processAttr ids variants rest = .ok (ids2, variants2) := by
          simpa [processAttr, hch] using h
        exact ih _ _ _ _ h2 v hv
      · simp [processAttr, hch] at h
    | Ident name sp => simp [processAttr] at h
    | Group delimiter stream sp => simp [processAttr] at h

/-- A successful configuration pass collects exactly the literal values in
declaration order, and derives the variant names from them in the same
order. -/
theorem processAttr_ok_values :
    ∀ (attr : List PMTokenTree) (ids variants ids2 variants2 : List String),
      processAttr ids variants attr = .ok (ids2, variants2) →
      ids2 = ids ++ attrValues attr ∧
      variants2 = variants ++ (attrValues attr).map to_pascal_case_ident := by
  intro attr
  induction attr with
  | nil =>
    intro ids variants ids2 variants2 h
    simp [processAttr] at h
    simp [attrValues, h.1, h.2]
  | cons t rest ih =>
    intro ids variants ids2 variants2 h
    cases t with
    | Literal text sp =>
      cases hval : value_from_literal_str text with
      | error msg => simp [processAttr, hval] at h
      | ok value =>
        by_cases he : value.isEmpty
        · simp [processAttr, hval, he] at h
        · by_cases hc : value ∈ ids
          · simp [processAttr, hval, he, hc] at h
          · have h2 : processAttr (ids ++ [value]) (variants ++ [to_pascal_case_ident value]) rest
                = .ok (ids2, variants2) := by
              simpa [processAttr, hval, he, hc] using h
            have hrest := ih _ _ _ _ h2
            constructor
            · rw [hrest.1]
              simp [attrValues, List.filterMap_cons, hval, Except.toOption]
            · rw [hrest.2]
              simp [attrValues, List.filterMap_cons, hval, Except.toOption]
    | Punct ch sp =>
      by_cases hch : ch = ','
      · have h2 : processAttr ids variants rest = .ok (ids2, variants2) := by
          simpa [processAttr, hch] using h
        have hrest := ih _ _ _ _ h2
        constructor
        · rw [hrest.1]
          simp [attrValues, List.filterMap_cons]
        · rw [hrest.2]
          simp [attrValues, List.filterMap_cons]
      · simp [processAttr, hch] at h
    | Ident name sp => simp [processAttr] at h
    | Group delimiter stream sp => simp [processAttr] at h

/-! ### Claim theorems -/

/-- Claim C1 (evaluation at the failing input): for the invocation
`view! { <div id="A" id="B"> }` the scanner yields five tokens, not two --
after emitting `"A"` the parser state stays in the value state, so the
second `id`, its `=`, and the trailing `>` are also yielded; the literal
rule nevertheless reports exactly the two string literals. -/
theorem claim_c1_scanner_not_reset_after_two_attributes :
    scanIdValues 1 exTwoIds =
      [⟨.Literal ⟨.Str, "A"⟩, 4⟩, ⟨.Ident "id" false, 5⟩, ⟨.Eq, 6⟩,
       ⟨.Literal ⟨.Str, "B"⟩, 7⟩, ⟨.Other ">", 8⟩] ∧
    (scanIdValues 1 exTwoIds).length = 5 ∧
    literalAsIdAttributeValue_check_mac mcTwoIds =
      [⟨4, literalLintMessage, literalLintHelp⟩, ⟨7, literalLintMessage, literalLintHelp⟩] :=
  ⟨rfl, rfl, rfl⟩

/-- Claim C2 (evaluation at the failing input): after the emission of the
value `"A"` the parser state is 4, not back to `Scanning` (1); after a
failed match in the `SeenIdentifier` state the scan does continue in state
1 on the remaining nodes. -/
theorem claim_c2_state_remains_in_value_state_after_emission :
    viewIterNext 1 exEmit = some (⟨.Literal ⟨.Str, "A"⟩, 3⟩, 4, [tokOther ">" 4]) ∧
    viewIterNext 2 [tokIdent "div" 9, tokIdent "id" 10, tokEq 11, tokStr "C" 12]
      = viewIterNext 1 [tokIdent "id" 10, tokEq 11, tokStr "C" 12] :=
  ⟨rfl, rfl⟩

/-- Claim C3 (evaluation at the failing input): for
`view! { <div id=Ids::MyIdentifier> }` the non-registry rule flags the
`::`, `MyIdentifier` and `>` tokens (yielded because the state is not reset
after emitting `Ids`), so the invocation is not diagnostic-free; the
literal rule emits nothing. -/
theorem claim_c3_registry_value_still_flagged :
    ttAsIdAttributeValue_check_mac mcIdsValue = [ttDiag 5, ttDiag 6, ttDiag 7] ∧
    literalAsIdAttributeValue_check_mac mcIdsValue = [] :=
  ⟨rfl, rfl⟩

/-- Claim C4 (evaluation at the failing input): for
`view! { <div id={foo}> }` the scanner yields nothing (a delimited group in
the value state resets the state and is skipped), so neither rule emits any
diagnostic; the claimed group-spanning diagnostic does not happen. -/
theorem claim_c4_group_value_never_yielded :
    scanIdValues 1 exGroupValue = [] ∧
    ttAsIdAttributeValue_check_mac mcGroupValue = [] ∧
    literalAsIdAttributeValue_check_mac mcGroupValue = [] :=
  ⟨rfl, rfl, rfl⟩

/-- Claim C5 counterexample: for the top-level sequence `id id = x` the
scanner yields nothing at all -- in particular the token `x` is not
emitted, contradicting the claimed re-evaluation of the second `id`. -/
theorem claim_c5_counterexample_id_id_eq_x :
    scanIdValues 1 exIdIdEqX = [] ∧
    (scanIdValues 1 exIdIdEqX).contains ⟨.Ident "x" false, 4⟩ = false :=
  ⟨rfl, rfl⟩

/-- Claim C5 as amended: in the `SeenIdentifier` state a node that is not
an `=` atom returns the scanner to `Scanning` and is consumed -- the scan
continues with the nodes after it, so the node is never re-evaluated. -/
theorem claim_c5_failed_match_consumes_node (t : TokenTree) (rest : List TokenTree)
    (h : isEqAtom t = false) :
    viewIterNext 2 (t :: rest) = viewIterNext 1 rest := by
  cases t with
  | Token tok =>
    have hk : (tok.kind == TokenKind.Eq) = false := by simpa [isEqAtom] using h
    simp [viewIterNext, hk]
  | Delimited sp inner =>
    simp [viewIterNext]

/-- Witness for the amended claim C5 at the sequence `id id = x`. -/
theorem claim_c5_failed_match_consumes_node_witness :
    isEqAtom (tokIdent "id" 2) = false ∧
    viewIterNext 2 [tokIdent "id" 2, tokEq 3, tokIdent "x" 4]
      = viewIterNext 1 [tokEq 3, tokIdent "x" 4] :=
  ⟨rfl, claim_c5_failed_match_consumes_node (tokIdent "id" 2) [tokEq 3, tokIdent "x" 4] rfl⟩

/-- Claim C6 counterexample: for `view! { <div id=r"X"> }` the raw string
literal is yielded as the attribute value, yet the literal rule emits no
diagnostic -- its check is `lit.kind == LitKind::Str` exactly, which a
`StrRaw` literal fails. -/
theorem claim_c6_counterexample_raw_string :
    scanIdValues 1 exRawStr = [⟨.Literal ⟨.StrRaw 0, "X"⟩, 4⟩, ⟨.Other ">", 5⟩] ∧
    literalAsIdAttributeValue_check_mac mcRawStr = [] :=
  ⟨rfl, rfl⟩

/-- Claim C6 as amended: on a recognized invocation the literal rule emits
exactly one diagnostic, at the token's span with the fixed message and help
text, for each yielded token carrying a cooked (`LitKind::Str`) string
literal, in scan order, and takes no action on any other yielded token. -/
theorem claim_c6_literal_rule_flags_cooked_str_only (mc : MacCall)
    (h : is_leptos_view_macro_call mc = true) :
    literalAsIdAttributeValue_check_mac mc
      = (scanIdValues 1 mc.argTokens).filterMap literalLintClassify := by
  simp [literalAsIdAttributeValue_check_mac, h, literalLintOnTokens_eq_filterMap]

/-- Witness for the amended claim C6 at the raw-string invocation. -/
theorem claim_c6_literal_rule_flags_cooked_str_only_witness :
    is_leptos_view_macro_call mcRawStr = true ∧
    literalAsIdAttributeValue_check_mac mcRawStr
      = (scanIdValues 1 mcRawStr.argTokens).filterMap literalLintClassify :=
  ⟨rfl, claim_c6_literal_rule_flags_cooked_str_only mcRawStr rfl⟩

/-- Claim C7: the recognizer returns true exactly when the last path
segment is the identifier `view` (so it inspects nothing but that name, and
an empty path is rejected), and whenever the last segment is not `view`
both rules emit no diagnostics at all. -/
theorem claim_c7_recognizer_gates_both_rules (mc : MacCall) :
    (is_leptos_view_macro_call mc = true ↔
      (mc.path.map PathSegment.ident).getLast? = some "view") ∧
    ((mc.path.map PathSegment.ident).getLast? ≠ some "view" →
      literalAsIdAttributeValue_check_mac mc = [] ∧
      ttAsIdAttributeValue_check_mac mc = []) := by
  have hiff : is_leptos_view_macro_call mc = true ↔
      (mc.path.map PathSegment.ident).getLast? = some "view" := by
    rw [List.getLast?_map]
    cases hl : mc.path.getLast? with
    | none => simp [is_leptos_view_macro_call, hl]
    | some seg => simp [is_leptos_view_macro_call, hl]
  refine ⟨hiff, fun hne => ?_⟩
  have hf : is_leptos_view_macro_call mc = false := by
    cases hb : is_leptos_view_macro_call mc
    · rfl
    · exact absurd (hiff.mp hb) hne
  exact ⟨by simp [literalAsIdAttributeValue_check_mac, hf],
         by simp [ttAsIdAttributeValue_check_mac, hf]⟩

/-- Witness for claim C7 at an invocation whose last path segment is
`html`: neither rule emits a diagnostic although the argument tokens hold
two id attributes with literal values. -/
theorem claim_c7_recognizer_gates_both_rules_witness :
    (mcNotView.path.map PathSegment.ident).getLast? ≠ some "view" ∧
    (literalAsIdAttributeValue_check_mac mcNotView = [] ∧
     ttAsIdAttributeValue_check_mac mcNotView = []) := by
  have hne : (mcNotView.path.map PathSegment.ident).getLast? ≠ some "view" := by decide
  exact ⟨hne, (claim_c7_recognizer_gates_both_rules mcNotView).2 hne⟩

/-- Claim C8 (evaluation at the failing input): the generator accepts the
configuration literal `"fóo"` and emits the enumeration (`to_pascal_case_ident`
delegates to the external pascal-case conversion and has no error path),
while the repository's own `to_pascal_case` -- whose rejection the spec
describes -- errors out on the same input. -/
theorem claim_c8_non_ascii_literal_accepted :
    leptos_unique_ids attrNonAscii emptyIdsEnum
      = .ok ⟨none, ["fóo"], [to_pascal_case_ident "fóo"]⟩ ∧
    to_pascal_case "fóo" = .error "Input contains non-ASCII characters." :=
  ⟨rfl, rfl⟩

/-- Claim C9 counterexample: the generator accepts the non-empty target
declaration `enum Ids { A }` (the shape check looks only at token kinds, so
the brace group's contents are never inspected) instead of rejecting it. -/
theorem claim_c9_counterexample_nonempty_body :
    leptos_unique_ids [] nonEmptyIdsEnum = .ok ⟨none, [], []⟩ := rfl

/-- Claim C9 as amended: the shape check accepts `enum Ids { ... }` with an
arbitrary body, accepts `pub` and `pub(crate)` visibility qualifiers, and
rejects with the positioned shape error (at the `enum` keyword) a
declaration whose enum name is none of `Ids`, `enum`, `pub`. -/
theorem claim_c9_shape_check_token_kinds :
    (∀ (body : List PMTokenTree) (s1 s2 s3 : Span),
      leptos_unique_ids [] [.Ident "enum" s1, .Ident "Ids" s2, .Group .Brace body s3]
        = .ok ⟨none, [], []⟩) ∧
    leptos_unique_ids []
        [.Ident "pub" 40, .Ident "enum" 41, .Ident "Ids" 42, .Group .Brace [] 43]
      = .ok ⟨some [.Ident "pub" 40], [], []⟩ ∧
    leptos_unique_ids []
        [.Ident "pub" 44, .Group .Parenthesis [.Ident "crate" 46] 45,
         .Ident "enum" 47, .Ident "Ids" 48, .Group .Brace [] 49]
      = .ok ⟨some [.Ident "pub" 44, .Group .Parenthesis [.Ident "crate" 46] 45], [], []⟩ ∧
    (∀ (name : String) (s1 s2 s3 : Span),
      name ≠ "Ids" → name ≠ "enum" → name ≠ "pub" →
      leptos_unique_ids [] [.Ident "enum" s1, .Ident name s2, .Group .Brace [] s3]
        = .error ⟨shapeErrorMessage, s1⟩) := by
  refine ⟨fun body s1 s2 s3 => rfl, rfl, rfl, fun name s1 s2 s3 h1 h2 h3 => ?_⟩
  simp [leptos_unique_ids, visSkipWhile, enumTokenOk, shapeErrorSpan, isEnumIdent,
    PMTokenTree.span, h1, h2, h3]

/-- Witness for the amended claim C9: the name `Foo` is rejected with the
positioned error; a non-empty body is accepted. -/
theorem claim_c9_shape_check_token_kinds_witness :
    ("Foo" : String) ≠ "Ids" ∧
    leptos_unique_ids [] [.Ident "enum" 60, .Ident "Foo" 61, .Group .Brace [] 62]
      = .error ⟨shapeErrorMessage, 60⟩ ∧
    leptos_unique_ids [] [.Ident "enum" 63, .Ident "Ids" 64, .Group .Brace [.Ident "B" 66] 65]
      = .ok ⟨none, [], []⟩ := by
  refine ⟨by decide, ?_, ?_⟩
  · exact claim_c9_shape_check_token_kinds.2.2.2 "Foo" 60 61 62
      (by decide) (by decide) (by decide)
  · exact claim_c9_shape_check_token_kinds.1 [.Ident "B" 66] 63 64 65

/-- Claim C10: a configuration literal equal to an earlier accepted one is
rejected with the positioned duplicate error and no output; an empty-string
literal is rejected with the positioned emptiness error; the empty
configuration list is accepted and yields the empty enumeration; and on any
successful run the collected values are the literal values in declaration
order with the variant names derived from them deterministically in the
same order. -/
theorem claim_c10_config_validation :
    (∀ (pre post : List PMTokenTree) (text value : String) (sp : Span)
       (ids variants : List String),
      processAttr [] [] pre = .ok (ids, variants) →
      value_from_literal_str text = .ok value →
      ids.contains value = true →
      leptos_unique_ids (pre ++ PMTokenTree.Literal text sp :: post) emptyIdsEnum
        = .error ⟨"Duplicated string literal found.", sp⟩) ∧
    (∀ (pre post : List PMTokenTree) (text : String) (sp : Span)
       (ids variants : List String),
      processAttr [] [] pre = .ok (ids, variants) →
      value_from_literal_str text = .ok "" →
      leptos_unique_ids (pre ++ PMTokenTree.Literal text sp :: post) emptyIdsEnum
        = .error ⟨"String literals in the attribute cannot be empty.", sp⟩) ∧
    leptos_unique_ids [] emptyIdsEnum = .ok ⟨none, [], []⟩ ∧
    (∀ (attr : List PMTokenTree) (out : GenOutput),
      leptos_unique_ids attr emptyIdsEnum = .ok out →
      out.ids = attrValues attr ∧
      out.variants = out.ids.map to_pascal_case_ident ∧
      out.vis = none) := by
  have hshape : ∀ (attr : List PMTokenTree),
      leptos_unique_ids attr emptyIdsEnum =
        (match processAttr [] [] attr with
         | .error e => .error e
         | .ok (ids, variants) => .ok ⟨none, ids, variants⟩) := by
    intro attr
    rfl
  refine ⟨?_, ?_, rfl, ?_⟩
  · intro pre post text value sp ids variants hpre hval hcont
    have hmem : value ∈ ids := by simpa using hcont
    have hvne : value.isEmpty = false := by
      rcases processAttr_ok_nonempty pre [] [] ids variants hpre value hmem with h0 | h0
      · exact absurd h0 (List.not_mem_nil value)
      · exact h0
    have happ := processAttr_append pre [] [] ids variants
      (PMTokenTree.Literal text sp :: post) hpre
    have hstep : processAttr ids variants (PMTokenTree.Literal text sp :: post)
        = .error ⟨"Duplicated string literal found.", sp⟩ := by
      simp [processAttr, hval, hvne, hmem]
    rw [hshape, happ, hstep]
  · intro pre post text sp ids variants hpre hval
    have happ := processAttr_append pre [] [] ids variants
      (PMTokenTree.Literal text sp :: post) hpre
    have hemp : String.isEmpty "" = true := rfl
    have hstep : processAttr ids variants (PMTokenTree.Literal text sp :: post)
        = .error ⟨"String literals in the attribute cannot be empty.", sp⟩ := by
      simp [processAttr, hval, hemp]
    rw [hshape, happ, hstep]
  · intro attr out h
    rw [hshape] at h
    cases hp : processAttr [] [] attr with
    | error e => rw [hp] at h; simp at h
    | ok p =>
      rcases p with ⟨ids, variants⟩
      rw [hp] at h
      simp at h
      obtain ⟨hids, hvars⟩ := processAttr_ok_values attr [] [] ids variants hp
      rw [← h]
      refine ⟨by simpa using hids, ?_, rfl⟩
      simp only [List.nil_append] at hids hvars
      simp [hids, hvars]

/-- Witness for claim C10 at concrete configuration lists: a duplicated
`"a"`, an empty literal, the empty list, and the valid list `("a", "b-c")`
whose output is `ids = [a, b-c]` with variants `[A, BC]`. -/
theorem claim_c10_config_validation_witness :
    leptos_unique_ids [PMTokenTree.Literal "\"a\"" 70, PMTokenTree.Literal "\"a\"" 71] emptyIdsEnum
      = .error ⟨"Duplicated string literal found.", 71⟩ ∧
    leptos_unique_ids [PMTokenTree.Literal "\"a\"" 70, PMTokenTree.Literal "\"\"" 72] emptyIdsEnum
      = .error ⟨"String literals in the attribute cannot be empty.", 72⟩ ∧
    leptos_unique_ids [] emptyIdsEnum = .ok ⟨none, [], []⟩ ∧
    ((⟨none, ["a", "b-c"], ["A", "BC"]⟩ : GenOutput).ids
        = attrValues [PMTokenTree.Literal "\"a\"" 70, PMTokenTree.Punct ',' 73,
            PMTokenTree.Literal "\"b-c\"" 74] ∧
     (⟨none, ["a", "b-c"], ["A", "BC"]⟩ : GenOutput).variants
        = (⟨none, ["a", "b-c"], ["A", "BC"]⟩ : GenOutput).ids.map to_pascal_case_ident ∧
     (⟨none, ["a", "b-c"], ["A", "BC"]⟩ : GenOutput).vis = none) := by
  refine ⟨?_, ?_, claim_c10_config_validation.2.2.1, ?_⟩
  · exact claim_c10_config_validation.1 [PMTokenTree.Literal "\"a\"" 70] [] "\"a\"" "a" 71
      ["a"] ["A"] rfl rfl rfl
  · exact claim_c10_config_validation.2.1 [PMTokenTree.Literal "\"a\"" 70] [] "\"\"" 72
      ["a"] ["A"] rfl rfl
  · exact claim_c10_config_validation.2.2.2
      [PMTokenTree.Literal "\"a\"" 70, PMTokenTree.Punct ',' 73, PMTokenTree.Literal "\"b-c\"" 74]
      ⟨none, ["a", "b-c"], ["A", "BC"]⟩ rfl

end LeptosUniqueIds
